import Mathlib

/-!
Shallow embedding of the retrieval-and-aggregation core of the
highlight-reels-maker repository, together with proofs settling the frozen
claims about its specification.

The embedding follows `src/functions/search_context.py` (the heavy-range
aggregator `findHeavyRange`), `src/functions/build_audio_index.py` (artifact
discovery and the upserted metadata), and the identifier conventions
established by `src/functions/generate_video_context.py` and
`src/functions/generate_audio_context.py`.

Python strings are modelled as `List Char` (wrapped in `String` at the API
boundary); Python `int` as `Int`; exceptions as `Except PyErr`.
-/

namespace HRM

/-! ## Python string primitives used by the source -/

/-- Value of a decimal digit character, as Python computes it via code
points; callers only apply it to `'0'..'9'`. -/
def digitVal (c : Char) : Nat := c.toNat - 48

/-- Numeric value of a digit string, most significant first (the value
`int(s)` computes for a sign-free digit string `s`). -/
def digitsVal (l : List Char) : Nat :=
  l.foldl (fun a c => 10 * a + digitVal c) 0

/-- Python `int(s)` on the strings this program feeds it: an optional single
sign followed by decimal digits; `none` models the `ValueError` raised
otherwise.  (Surrounding whitespace and `_` separators, which Python also
accepts, never occur in this program's inputs and are not modelled.) -/
def pyInt (l : List Char) : Option Int :=
  match l with
  | [] => none
  | c :: cs =>
    if c = '-' then
      if cs ≠ [] ∧ cs.all Char.isDigit then some (-(digitsVal cs : Int)) else none
    else if c = '+' then
      if cs ≠ [] ∧ cs.all Char.isDigit then some ((digitsVal cs : Int)) else none
    else if (c :: cs).all Char.isDigit then some ((digitsVal (c :: cs) : Int)) else none

/-- Fuel-driven worker for `pyReplace`: replaces non-overlapping occurrences
of `old` left to right, exactly as Python `str.replace` scans.  The fuel only
serves structural termination; `fuel ≥ length` makes it semantically inert
for nonempty `old`. -/
def replaceFuel (old new : List Char) : Nat → List Char → List Char
  | _, [] => []
  | 0, l => l
  | fuel + 1, c :: cs =>
    if old.isPrefixOf (c :: cs) then
      new ++ replaceFuel old new fuel ((c :: cs).drop old.length)
    else
      c :: replaceFuel old new fuel cs

/-- Python `s.replace(old, new)` for nonempty `old`: every non-overlapping
occurrence of `old` in `s`, scanned left to right, is replaced by `new`. -/
def pyReplace (old new l : List Char) : List Char :=
  replaceFuel old new l.length l

/-- Whether `p` occurs as a contiguous substring (at any position). -/
def hasOccur (p : List Char) : List Char → Bool
  | [] => p.isEmpty
  | c :: cs => p.isPrefixOf (c :: cs) || hasOccur p cs

/-! ## The `pathlib` fragment the source uses

`Path(s).parent`, `Path(s).name` and `Path(s).stem` on the already-normalised
relative paths this program builds (no duplicate or trailing slashes, no
`..`); only that subset is modelled. -/

/-- Python `str(Path(s).parent)`: everything before the last `/`, or `.` when
there is no `/`. -/
def parentOf (l : List Char) : List Char :=
  if '/' ∈ l then ((l.reverse.dropWhile (fun c => c ≠ '/')).drop 1).reverse
  else ['.']

/-- Python `Path(s).name`: everything after the last `/`. -/
def nameOf (l : List Char) : List Char :=
  (l.reverse.takeWhile (fun c => c ≠ '/')).reverse

/-- Stem of a file name `n` (no slashes): `n` cut at its last `.`, except
that a `.` at position 0 (or no `.` at all) leaves `n` unchanged, matching
`pathlib`'s `PurePath.stem`. -/
def stemName (n : List Char) : List Char :=
  let pre := n.reverse.dropWhile (fun c => c ≠ '.')
  if pre.drop 1 = [] then n else (pre.drop 1).reverse

/-- Python `Path(s).stem`. -/
def stemOf (l : List Char) : List Char := stemName (nameOf l)

/-! ## The heavy-range aggregator, from `search_context.py` -/

/-- Exceptions the Python code can raise on the paths modelled here. -/
inductive PyErr where
  /-- `TypeError`, e.g. comparing `int` with `list`. -/
  | typeError
  /-- `ValueError` from `int()` on a non-numeric string. -/
  | valueErrorInt
  /-- `ValueError` from `max()` on an empty sequence. -/
  | valueErrorMax
  /-- `IndexError` from indexing a list out of range. -/
  | indexError
  deriving DecidableEq

/-- A dynamically typed Python value as it flows through the buggy
`videoCount` variable of `findHeavyRange`, which holds an `int` initially but
is assigned a whole list afterwards. -/
inductive PyVal where
  | int (n : Int)
  | list (l : List Int)
  deriving DecidableEq

/-- One Pinecone match as consumed by `findHeavyRange`; only the `id` field
is read by the code. -/
structure MatchResult where
  id : String

/-- Decoding of one match id, from the loop body of `findHeavyRange`:
`videoName = str(Path(itemID).parent).replace("video_context", "source")` and
`int(Path(itemID).stem.replace("frame_", ""))`; `none` models the
`ValueError` when `int()` fails. -/
def decodeId (s : String) : Option (String × Int) :=
  let videoName := pyReplace "video_context".data "source".data (parentOf s.data)
  match pyInt (pyReplace "frame_".data [] (stemOf s.data)) with
  | some o => some (String.mk videoName, o)
  | none => none

/-- Append one decoded frame into the per-video grouping, preserving Python
dict insertion order: an existing key keeps its position and appends the
value, a new key goes to the back. -/
def addFrame (acc : List (String × List Int)) (k : String) (o : Int) :
    List (String × List Int) :=
  if acc.any (fun kv => kv.1 = k) then
    acc.map (fun kv => if kv.1 = k then (kv.1, kv.2 ++ [o]) else kv)
  else acc ++ [(k, [o])]

/-- The first loop of `findHeavyRange`: decode every match id and group the
ordinals by (rewritten) video name; a failing `int()` aborts the whole call. -/
def buildFrames (ms : List MatchResult) : Except PyErr (List (String × List Int)) :=
  ms.foldlM (fun acc m =>
    match decodeId m.id with
    | some (vn, o) => Except.ok (addFrame acc vn o)
    | none => Except.error PyErr.valueErrorInt) []

/-- Python `len(val) > videoCount` with the dynamically typed `videoCount`:
comparing against a stored list raises `TypeError` in Python 3. -/
def pyGtLen (n : Nat) (v : PyVal) : Except PyErr Bool :=
  match v with
  | PyVal.int m => Except.ok ((n : Int) > m)
  | PyVal.list _ => Except.error PyErr.typeError

/-- The selection loop of `findHeavyRange`, verbatim including its slip:
`videoName, videoCount = key, val` stores the list `val` itself into
`videoCount`, not `len(val)`. -/
def selectVideo (frames : List (String × List Int)) : Except PyErr (String × PyVal) :=
  frames.foldlM (fun acc kv => do
    let gt ← pyGtLen kv.2.length acc.2
    if gt then pure (kv.1, PyVal.list kv.2) else pure acc)
    ("", PyVal.int 0)

/-- Python `frames[videoName]` on a `defaultdict(list)`: a missing key yields
the empty list. -/
def lookupD (frames : List (String × List Int)) (k : String) : List Int :=
  match frames.find? (fun kv => kv.1 = k) with
  | some kv => kv.2
  | none => []

/-- Python `max(l)` for a list of ints; raises `ValueError` on `[]`. -/
def pyMax (l : List Int) : Except PyErr Int :=
  match l with
  | [] => Except.error PyErr.valueErrorMax
  | x :: xs => Except.ok (xs.foldl max x)

/-- Python `buffer[index] += 1` with full Python list-index semantics: a
non-negative index must be below the length, a negative index counts from the
end, anything else raises `IndexError`. -/
def pyIncr (b : List Nat) (i : Int) : Except PyErr (List Nat) :=
  if 0 ≤ i ∧ i < (b.length : Int) then
    Except.ok (b.set i.toNat (b.getD i.toNat 0 + 1))
  else if -(b.length : Int) ≤ i ∧ i < 0 then
    Except.ok (b.set (i + b.length).toNat (b.getD (i + b.length).toNat 0 + 1))
  else Except.error PyErr.indexError

/-- The occupancy-histogram loop of `findHeavyRange`:
`for index in frames[videoName]: buffer[index] += 1`. -/
def fillBuffer (b : List Nat) (os : List Int) : Except PyErr (List Nat) :=
  os.foldlM pyIncr b

/-- Allocation plus filling of the occupancy buffer for the selected video's
ordinals: `buffer = [0 for _ in range(max(...) + 1)]` then the fill loop. -/
def bufferOf (os : List Int) : Except PyErr (List Nat) := do
  let mx ← pyMax os
  fillBuffer (List.replicate (mx + 1).toNat 0) os

/-- Python `sum(buffer[i : i + interval])` (slices clamp at the ends). -/
def csm (b : List Nat) (interval i : Nat) : Nat :=
  ((b.drop i).take interval).sum

/-- One iteration of the sliding-window loop: keep the first strictly
greater window sum. -/
def scanStep (b : List Nat) (interval : Nat) (acc : Nat × Nat) (i : Nat) : Nat × Nat :=
  if csm b interval i > acc.2 then (i, csm b interval i) else acc

/-- The sliding-window loop of `findHeavyRange`:
`for i in range(1, len(buffer) - interval)` starting from
`startIndex, count = 0, 0`.  Python `range(1, N)` enumerates
`1, ..., N - 1`, hence `List.range' 1 (len - interval - 1)`. -/
def windowScan (b : List Nat) (interval : Nat) : Nat × Nat :=
  (List.range' 1 (b.length - interval - 1)).foldl (scanStep b interval) (0, 0)

/-- `findHeavyRange(videoMatches, interval)` from
`src/functions/search_context.py`, returning
`(videoName + ".MOV", startIndex, startIndex + interval)` or the Python
exception the call raises. -/
def findHeavyRange (videoMatches : List MatchResult) (interval : Nat) :
    Except PyErr (String × Nat × Nat) := do
  let frames ← buildFrames videoMatches
  let sel ← selectVideo frames
  let os := lookupD frames sel.1
  let mx ← pyMax os
  let b ← fillBuffer (List.replicate (mx + 1).toNat 0) os
  let r := windowScan b interval
  pure (sel.1 ++ ".MOV", r.1, r.1 + interval)

/-! ## The identifier `format` direction, modelled from the spec -/

/-- Decimal digit character for `d < 10`. -/
def digitChar (d : Nat) : Char :=
  match d with
  | 0 => '0' | 1 => '1' | 2 => '2' | 3 => '3' | 4 => '4'
  | 5 => '5' | 6 => '6' | 7 => '7' | 8 => '8' | 9 => '9'
  | _ => '*'

/-- Little-endian digit expansion of `n`, driven by fuel (`fuel ≥ n`
suffices). -/
def digitsAux : Nat → Nat → List Char
  | 0, _ => []
  | _ + 1, 0 => []
  | f + 1, n + 1 => digitChar ((n + 1) % 10) :: digitsAux f ((n + 1) / 10)

/-- Decimal digit string of `n`, most significant first. -/
def natDigits (n : Nat) : List Char :=
  if n = 0 then ['0'] else (digitsAux n n).reverse

/-- The `%04d` rendering of `n`: left-padded with zeros to width 4, as in the
`frame_%04d` file-naming convention. -/
def pad4 (n : Nat) : List Char :=
  List.replicate (4 - (natDigits n).length) '0' ++ natDigits n

/-- Modelled from the spec: the repository contains no `format` function —
only the parse side exists inline in `findHeavyRange` — so the codec's
`format(identifier) -> idString` contract (spec §4.1) is modelled from the
spec's words: it inverts the parse's context-root replacement (restoring the
`video_context` segment from the `source` segment) and renders the ordinal in
the `frame_%04d` convention with the `.txt` extension of the indexed artifact
family. -/
def formatId (x : String × Int) : String :=
  String.mk (pyReplace "source".data "video_context".data x.1.data
    ++ "/frame_".data ++ pad4 x.2.toNat ++ ".txt".data)

/-- A canonical frame identifier produced by this system: workspace root
`ws`, a video stem, and an ordinal rendered `%04d`. -/
def idOf (stem : List Char) (o : Nat) : String :=
  String.mk ("ws/video_context/".data ++ stem ++ "/frame_".data ++ pad4 o ++ ".txt".data)

/-! ## The audio indexer, from `build_audio_index.py` -/

/-- The discovery step of `build_audio_index.main`:
`contextFolder.rglob("*.txt")` keeps exactly the files whose final name
component matches the glob `*.txt`, i.e. ends in `.txt`. -/
def audioDiscovered (files : List String) : List String :=
  files.filter (fun f => ".txt".data.isSuffixOf (nameOf f.data))

/-- The fields of one parsed transcript-segment JSON object as
`build_audio_index.store_frame` sees them; `generate_audio_context` writes
both `summary` and `raw_text`.  Either key may be absent in a general JSON
object, which is why the code reads `data.get("summary", "")`. -/
structure TranscriptJson where
  summary : Option String
  raw_text : Option String

/-- One vector-index entry as upserted by the indexers; the embedding vector
type is abstract (produced by the external embedding service). -/
structure IndexEntry (V : Type) where
  id : String
  values : V
  metadata : List (String × String)

/-- The entry built by `build_audio_index.store_frame`: it embeds
`data.get("summary", "")` and upserts id `str(contextFile)` with metadata
`{"summary": summary}`. -/
def storeFrameEntry {V : Type} (embed : String → V) (contextFile : String)
    (data : TranscriptJson) : IndexEntry V :=
  ⟨contextFile, embed (data.summary.getD ""), [("summary", data.summary.getD "")]⟩


theorem replaceFuel_nil (old new : List Char) (f : Nat) : replaceFuel old new f [] = [] := by
  cases f <;> rfl

theorem replaceFuel_congr (old new : List Char) (hold : old ≠ []) :
    ∀ (n : Nat) (l : List Char), l.length ≤ n → ∀ f g, l.length ≤ f → l.length ≤ g →
      replaceFuel old new f l = replaceFuel old new g l := by
  intro n
  induction n with
  | zero =>
    intro l hl f g _ _
    have : l = [] := List.eq_nil_of_length_eq_zero (Nat.le_zero.mp hl)
    subst this
    rw [replaceFuel_nil, replaceFuel_nil]
  | succ n ih =>
    intro l hl f g hf hg
    cases l with
    | nil => rw [replaceFuel_nil, replaceFuel_nil]
    | cons c cs =>
      have hop : 0 < old.length := List.length_pos.mpr hold
      simp only [List.length_cons] at hl hf hg
      cases f with
      | zero => omega
      | succ f' =>
        cases g with
        | zero => omega
        | succ g' =>
          simp only [replaceFuel]
          cases hpb : old.isPrefixOf (c :: cs) with
          | true =>
            simp only [if_true]
            congr 1
            apply ih <;> simp only [List.length_drop, List.length_cons] <;> omega
          | false =>
            simp only [Bool.false_eq_true, if_false]
            congr 1
            apply ih <;> omega

theorem replaceFuel_eq (old new : List Char) (hold : old ≠ []) (l : List Char) (f : Nat)
    (hf : l.length ≤ f) : replaceFuel old new f l = pyReplace old new l :=
  replaceFuel_congr old new hold (max f l.length) l (le_max_right _ _) f _ hf (le_refl _)

theorem pyReplace_cons_neg (old new : List Char) (c : Char) (l : List Char)
    (h : old.isPrefixOf (c :: l) = false) :
    pyReplace old new (c :: l) = c :: pyReplace old new l := by
  show replaceFuel old new (l.length + 1) (c :: l) = _
  simp only [replaceFuel, h, Bool.false_eq_true, if_false]
  rfl

theorem isPrefixOf_append_self (a b : List Char) : a.isPrefixOf (a ++ b) = true := by
  induction a with
  | nil => simp [List.isPrefixOf]
  | cons x xs ih => simp [List.isPrefixOf, ih]

theorem pyReplace_append_self (old new rest : List Char) (hold : old ≠ []) :
    pyReplace old new (old ++ rest) = new ++ pyReplace old new rest := by
  obtain ⟨o, os, rfl⟩ : ∃ o os, old = o :: os := by
    cases old with
    | nil => exact absurd rfl hold
    | cons o os => exact ⟨o, os, rfl⟩
  show replaceFuel _ _ ((o :: os ++ rest).length) _ = _
  have hlen : (o :: os ++ rest).length = (os.length + rest.length) + 1 := by
    simp [List.length_append]
  rw [hlen]
  have hcons : (o :: os) ++ rest = o :: (os ++ rest) := rfl
  rw [hcons]
  simp only [replaceFuel]
  have hpre : (o :: os).isPrefixOf (o :: (os ++ rest)) = true := by
    have := isPrefixOf_append_self (o :: os) rest
    rwa [hcons] at this
  simp only [hpre, if_true]
  have hdrop : List.drop (o :: os).length (o :: (os ++ rest)) = rest := by
    have := List.drop_left (o :: os) rest
    rwa [hcons] at this
  rw [hdrop]
  congr 1
  exact replaceFuel_eq _ _ hold _ _ (by omega)

theorem hasOccur_false_elim (old : List Char) (c : Char) (cs : List Char)
    (h : hasOccur old (c :: cs) = false) :
    old.isPrefixOf (c :: cs) = false ∧ hasOccur old cs = false := by
  simp only [hasOccur, Bool.or_eq_false_iff] at h
  exact h

theorem pyReplace_no_occur (old new : List Char) :
    ∀ l : List Char, hasOccur old l = false → pyReplace old new l = l := by
  intro l
  induction l with
  | nil => intro _; rfl
  | cons c cs ih =>
    intro h
    obtain ⟨h1, h2⟩ := hasOccur_false_elim old c cs h
    rw [pyReplace_cons_neg old new c cs h1, ih h2]


theorem isPrefixOf_cons_ne (a : Char) (as : List Char) (b : Char) (bs : List Char)
    (h : a ≠ b) : (a :: as).isPrefixOf (b :: bs) = false := by
  simp [List.isPrefixOf, h]

theorem parentOf_concat (a b : List Char) (hb : '/' ∉ b) :
    parentOf (a ++ '/' :: b) = a := by
  unfold parentOf
  rw [if_pos (by simp)]
  rw [List.reverse_append, List.reverse_cons]
  rw [List.append_assoc, List.singleton_append]
  rw [List.dropWhile_append_of_pos (by
    intro x hx
    have : x ∈ b := List.mem_reverse.mp hx
    simp only [decide_eq_true_eq]
    intro hEq; exact hb (hEq ▸ this))]
  simp [List.dropWhile_cons]

theorem nameOf_concat (a b : List Char) (hb : '/' ∉ b) :
    nameOf (a ++ '/' :: b) = b := by
  unfold nameOf
  rw [List.reverse_append, List.reverse_cons]
  rw [List.append_assoc, List.singleton_append]
  rw [List.takeWhile_append_of_pos (by
    intro x hx
    have : x ∈ b := List.mem_reverse.mp hx
    simp only [decide_eq_true_eq]
    intro hEq; exact hb (hEq ▸ this))]
  simp [List.takeWhile_cons]

theorem stemName_concat (a b : List Char) (hb : '.' ∉ b) (ha : a ≠ []) :
    stemName (a ++ '.' :: b) = a := by
  unfold stemName
  rw [List.reverse_append, List.reverse_cons]
  rw [List.append_assoc, List.singleton_append]
  rw [List.dropWhile_append_of_pos (by
    intro x hx
    have : x ∈ b := List.mem_reverse.mp hx
    simp only [decide_eq_true_eq]
    intro hEq; exact hb (hEq ▸ this))]
  rw [List.dropWhile_cons]
  simp only [decide_eq_true_eq, if_neg (by simp : ¬('.' : Char) ≠ '.')]
  rw [List.drop_one, List.tail_cons]
  rw [if_neg (by simpa using ha)]
  simp


theorem digitVal_digitChar (d : Nat) (h : d < 10) : digitVal (digitChar d) = d := by
  interval_cases d <;> rfl

theorem isDigit_digitChar (d : Nat) (h : d < 10) : (digitChar d).isDigit = true := by
  interval_cases d <;> rfl

theorem digitsVal_append_last (l : List Char) (c : Char) :
    digitsVal (l ++ [c]) = 10 * digitsVal l + digitVal c := by
  simp [digitsVal, List.foldl_append]

theorem digitsVal_digitsAux (f : Nat) :
    ∀ n : Nat, n ≤ f → digitsVal ((digitsAux f n).reverse) = n := by
  induction f with
  | zero =>
    intro n hn
    have : n = 0 := Nat.le_zero.mp hn
    subst this; rfl
  | succ f ih =>
    intro n hn
    cases n with
    | zero => rfl
    | succ m =>
      simp only [digitsAux, List.reverse_cons]
      rw [digitsVal_append_last]
      have hq : (m + 1) / 10 ≤ f := by
        have := Nat.div_lt_self (Nat.succ_pos m) (by omega : 1 < 10)
        omega
      rw [ih _ hq, digitVal_digitChar _ (Nat.mod_lt _ (by omega))]
      have := Nat.div_add_mod (m + 1) 10
      omega

theorem digitsVal_natDigits (n : Nat) : digitsVal (natDigits n) = n := by
  unfold natDigits
  by_cases h : n = 0
  · subst h; rfl
  · rw [if_neg h]
    exact digitsVal_digitsAux n n (le_refl n)

theorem digitsAux_ne_nil (f m : Nat) : digitsAux (f + 1) (m + 1) ≠ [] := by
  simp [digitsAux]

theorem natDigits_ne_nil (n : Nat) : natDigits n ≠ [] := by
  unfold natDigits
  by_cases h : n = 0
  · simp [h]
  · rw [if_neg h]
    obtain ⟨m, rfl⟩ := Nat.exists_eq_succ_of_ne_zero h
    simpa using digitsAux_ne_nil m m

theorem digitsAux_all_digit (f : Nat) :
    ∀ n c, c ∈ digitsAux f n → c.isDigit = true := by
  induction f with
  | zero => intro n c hc; simp [digitsAux] at hc
  | succ f ih =>
    intro n c hc
    cases n with
    | zero => simp [digitsAux] at hc
    | succ m =>
      simp only [digitsAux, List.mem_cons] at hc
      rcases hc with h | h
      · subst h; exact isDigit_digitChar _ (Nat.mod_lt _ (by omega))
      · exact ih _ _ h

theorem natDigits_all_digit (n : Nat) : ∀ c ∈ natDigits n, c.isDigit = true := by
  unfold natDigits
  by_cases h : n = 0
  · simp [h]
  · rw [if_neg h]
    intro c hc
    exact digitsAux_all_digit n n c (List.mem_reverse.mp hc)

theorem pad4_ne_nil (n : Nat) : pad4 n ≠ [] := by
  unfold pad4
  intro h
  rcases List.append_eq_nil.mp h with ⟨_, h2⟩
  exact natDigits_ne_nil n h2

theorem pad4_all_digit (n : Nat) : ∀ c ∈ pad4 n, c.isDigit = true := by
  unfold pad4
  intro c hc
  rcases List.mem_append.mp hc with h | h
  · have := List.eq_of_mem_replicate h
    subst this; rfl
  · exact natDigits_all_digit n c h

theorem digitsVal_zeros_append (k : Nat) (l : List Char) :
    digitsVal (List.replicate k '0' ++ l) = digitsVal l := by
  simp only [digitsVal, List.foldl_append]
  congr 1
  induction k with
  | zero => rfl
  | succ k ih => simpa [List.replicate_succ] using ih

theorem digitsVal_pad4 (n : Nat) : digitsVal (pad4 n) = n := by
  unfold pad4
  rw [digitsVal_zeros_append, digitsVal_natDigits]

theorem pyInt_digits (l : List Char) (hne : l ≠ []) (hd : ∀ c ∈ l, c.isDigit = true) :
    pyInt l = some ((digitsVal l : Int)) := by
  cases l with
  | nil => exact absurd rfl hne
  | cons c cs =>
    have hc : c.isDigit = true := hd c (List.mem_cons_self c cs)
    have hcm : c ≠ '-' := by intro h; subst h; simp at hc
    have hcp : c ≠ '+' := by intro h; subst h; simp at hc
    simp only [pyInt, if_neg hcm, if_neg hcp]
    rw [if_pos (List.all_eq_true.mpr (fun x hx => hd x hx))]

theorem pyInt_pad4 (n : Nat) : pyInt (pad4 n) = some ((n : Int)) := by
  rw [pyInt_digits (pad4 n) (pad4_ne_nil n) (pad4_all_digit n), digitsVal_pad4]

theorem hasOccur_false_of_pred (old l : List Char) (c : Char) (p : Char → Bool)
    (hh : old.head? = some c) (hpc : p c = false) (hl : ∀ x ∈ l, p x = true) :
    hasOccur old l = false := by
  induction l with
  | nil =>
    cases old with
    | nil => simp at hh
    | cons a as => rfl
  | cons d ds ih =>
    cases old with
    | nil => simp at hh
    | cons a as =>
      have ha : a = c := by simpa using hh
      subst ha
      simp only [hasOccur, Bool.or_eq_false_iff]
      constructor
      · apply isPrefixOf_cons_ne
        intro h
        rw [h] at hpc
        rw [hl d (List.mem_cons_self d ds)] at hpc
        exact absurd hpc (by simp)
      · exact ih (fun x hx => hl x (List.mem_cons_of_mem d hx))


theorem hasOccur_slash_cons_vctx (stem : List Char)
    (hv : hasOccur "video_context".data stem = false) :
    hasOccur "video_context".data ('/' :: stem) = false := by
  show (("video_context".data).isPrefixOf ('/' :: stem) || hasOccur "video_context".data stem) = false
  rw [hv]
  rw [show ("video_context".data).isPrefixOf ('/' :: stem) = false from
    isPrefixOf_cons_ne 'v' "ideo_context".data '/' stem (by decide)]
  rfl

theorem hasOccur_slash_cons_src (stem : List Char)
    (hs : hasOccur "source".data stem = false) :
    hasOccur "source".data ('/' :: stem) = false := by
  show (("source".data).isPrefixOf ('/' :: stem) || hasOccur "source".data stem) = false
  rw [hs]
  rw [show ("source".data).isPrefixOf ('/' :: stem) = false from
    isPrefixOf_cons_ne 's' "ource".data '/' stem (by decide)]
  rfl

theorem replace_vctx_in_path (stem : List Char)
    (hv : hasOccur "video_context".data ('/' :: stem) = false) :
    pyReplace "video_context".data "source".data ("ws/video_context/".data ++ stem)
      = "ws/source/".data ++ stem := by
  have e1 : "ws/video_context/".data ++ stem
      = 'w' :: 's' :: '/' :: ("video_context".data ++ '/' :: stem) := rfl
  rw [e1]
  rw [pyReplace_cons_neg _ _ _ _ (isPrefixOf_cons_ne 'v' "ideo_context".data 'w' _ (by decide))]
  rw [pyReplace_cons_neg _ _ _ _ (isPrefixOf_cons_ne 'v' "ideo_context".data 's' _ (by decide))]
  rw [pyReplace_cons_neg _ _ _ _ (isPrefixOf_cons_ne 'v' "ideo_context".data '/' _ (by decide))]
  rw [pyReplace_append_self _ _ _ (by decide)]
  rw [pyReplace_no_occur _ _ _ hv]
  rfl

theorem replace_src_in_path (stem : List Char)
    (hs : hasOccur "source".data ('/' :: stem) = false) :
    pyReplace "source".data "video_context".data ("ws/source/".data ++ stem)
      = "ws/video_context/".data ++ stem := by
  have e1 : "ws/source/".data ++ stem
      = 'w' :: 's' :: '/' :: ("source".data ++ '/' :: stem) := rfl
  rw [e1]
  rw [pyReplace_cons_neg _ _ _ _ (isPrefixOf_cons_ne 's' "ource".data 'w' _ (by decide))]
  rw [pyReplace_cons_neg _ _ _ _ (by
    show (('s' :: "ource".data).isPrefixOf ('s' :: '/' :: ("source".data ++ '/' :: stem))) = false
    show (('s' == 's') && ("ource".data).isPrefixOf ('/' :: ("source".data ++ '/' :: stem))) = false
    rw [isPrefixOf_cons_ne 'o' "urce".data '/' _ (by decide)]
    rfl)]
  rw [pyReplace_cons_neg _ _ _ _ (isPrefixOf_cons_ne 's' "ource".data '/' _ (by decide))]
  rw [pyReplace_append_self _ _ _ (by decide)]
  rw [pyReplace_no_occur _ _ _ hs]
  rfl


theorem decodeId_frames (stem ds : List Char)
    (hv : hasOccur "video_context".data stem = false)
    (hne : ds ≠ []) (hd : ∀ c ∈ ds, c.isDigit = true) :
    decodeId (String.mk ("ws/video_context/".data ++ stem ++ "/frame_".data ++ ds ++ ".txt".data))
      = some (String.mk ("ws/source/".data ++ stem), ((digitsVal ds : Int))) := by
  have hdsl : '/' ∉ "frame_".data ++ (ds ++ ".txt".data) := by
    intro h
    rcases List.mem_append.mp h with h | h
    · revert h; decide
    · rcases List.mem_append.mp h with h | h
      · have := hd _ h; simp at this
      · revert h; decide
  have esplit : ("ws/video_context/".data ++ stem ++ "/frame_".data ++ ds ++ ".txt".data : List Char)
      = ("ws/video_context/".data ++ stem) ++ '/' :: ("frame_".data ++ (ds ++ ".txt".data)) := by
    simp only [List.append_assoc]
    try rfl
  have hdata : (String.mk ("ws/video_context/".data ++ stem ++ "/frame_".data ++ ds ++ ".txt".data)).data
      = ("ws/video_context/".data ++ stem) ++ '/' :: ("frame_".data ++ (ds ++ ".txt".data)) := esplit
  unfold decodeId
  rw [hdata]
  rw [parentOf_concat _ _ hdsl]
  unfold stemOf
  rw [nameOf_concat _ _ hdsl]
  have esplit2 : "frame_".data ++ (ds ++ ".txt".data) = ("frame_".data ++ ds) ++ '.' :: "txt".data := by
    simp only [List.append_assoc]
    try rfl
  rw [esplit2]
  rw [stemName_concat _ _ (by decide) (by simp)]
  rw [pyReplace_append_self _ _ _ (by decide)]
  rw [pyReplace_no_occur _ _ _ (hasOccur_false_of_pred "frame_".data ds 'f' Char.isDigit rfl (by decide) hd)]
  rw [List.nil_append]
  rw [pyInt_digits ds hne hd]
  rw [replace_vctx_in_path stem (hasOccur_slash_cons_vctx stem hv)]

theorem formatId_canonical (stem : List Char) (o : Nat)
    (hs : hasOccur "source".data stem = false) :
    formatId (String.mk ("ws/source/".data ++ stem), ((o : Int))) = idOf stem o := by
  unfold formatId idOf
  have hdata : (String.mk ("ws/source/".data ++ stem)).data = "ws/source/".data ++ stem := rfl
  rw [hdata]
  rw [replace_src_in_path stem (hasOccur_slash_cons_src stem hs)]
  simp [Int.toNat_ofNat]

theorem decodeId_idOf (stem : List Char) (o : Nat)
    (hv : hasOccur "video_context".data stem = false) :
    decodeId (idOf stem o) = some (String.mk ("ws/source/".data ++ stem), ((o : Int))) := by
  unfold idOf
  rw [decodeId_frames stem (pad4 o) hv (pad4_ne_nil o) (pad4_all_digit o)]
  rw [digitsVal_pad4]


theorem le_foldl_max (l : List Int) : ∀ a : Int, a ≤ l.foldl max a := by
  induction l with
  | nil => intro a; exact le_refl a
  | cons b bs ih => intro a; exact le_trans (le_max_left a b) (ih (max a b))

theorem mem_le_foldl_max (as : List Int) : ∀ (a x : Int), x ∈ as → x ≤ as.foldl max a := by
  induction as with
  | nil => intro a x hx; simp at hx
  | cons b bs ih =>
    intro a x hx
    rcases List.mem_cons.mp hx with h | h
    · subst h; exact le_trans (le_max_right a x) (le_foldl_max bs (max a x))
    · exact ih (max a b) x h

theorem mem_le_pyMax (l : List Int) (m : Int) (hm : pyMax l = Except.ok m) :
    ∀ x ∈ l, x ≤ m := by
  cases l with
  | nil => simp [pyMax] at hm
  | cons a as =>
    have hm' : m = as.foldl max a := by
      simp [pyMax] at hm; exact hm.symm
    subst hm'
    intro x hx
    rcases List.mem_cons.mp hx with h | h
    · subst h; exact le_foldl_max as x
    · exact mem_le_foldl_max as a x h

theorem foldl_max_le (as : List Int) : ∀ (a c : Int), a ≤ c → (∀ x ∈ as, x ≤ c) →
    as.foldl max a ≤ c := by
  induction as with
  | nil => intro a c ha _; exact ha
  | cons b bs ih =>
    intro a c ha h
    exact ih (max a b) c (max_le ha (h b (List.mem_cons_self b bs)))
      (fun x hx => h x (List.mem_cons_of_mem b hx))

theorem pyMax_le (l : List Int) (c m : Int) (h : ∀ x ∈ l, x ≤ c)
    (hm : pyMax l = Except.ok m) : m ≤ c := by
  cases l with
  | nil => simp [pyMax] at hm
  | cons a as =>
    have hm' : m = as.foldl max a := by
      simp [pyMax] at hm; exact hm.symm
    subst hm'
    exact foldl_max_le as a c (h a (List.mem_cons_self a as))
      (fun x hx => h x (List.mem_cons_of_mem a hx))

theorem pyMax_ok (l : List Int) (h : l ≠ []) : ∃ m, pyMax l = Except.ok m := by
  cases l with
  | nil => exact absurd rfl h
  | cons a as => exact ⟨as.foldl max a, rfl⟩

theorem pyIncr_ok_of_lt (b : List Nat) (i : Int) (h0 : 0 ≤ i) (hlt : i < (b.length : Int)) :
    pyIncr b i = Except.ok (b.set i.toNat (b.getD i.toNat 0 + 1)) := by
  unfold pyIncr
  rw [if_pos ⟨h0, hlt⟩]

theorem fillBuffer_ok (os : List Int) : ∀ b : List Nat,
    (∀ o ∈ os, 0 ≤ o ∧ o < (b.length : Int)) →
    ∃ b', fillBuffer b os = Except.ok b' ∧ b'.length = b.length := by
  induction os with
  | nil => intro b _; exact ⟨b, rfl, rfl⟩
  | cons o os ih =>
    intro b h
    obtain ⟨h0, hlt⟩ := h o (List.mem_cons_self o os)
    have hlen : (b.set o.toNat (b.getD o.toNat 0 + 1)).length = b.length := by simp
    obtain ⟨b', hb', hlen'⟩ := ih (b.set o.toNat (b.getD o.toNat 0 + 1)) (fun x hx => by
      rw [hlen]; exact h x (List.mem_cons_of_mem o hx))
    refine ⟨b', ?_, by rw [hlen', hlen]⟩
    show List.foldlM pyIncr b (o :: os) = Except.ok b'
    rw [List.foldlM_cons, pyIncr_ok_of_lt b o h0 hlt]
    show Except.bind (Except.ok (b.set o.toNat (b.getD o.toNat 0 + 1))) _ = _
    rw [Except.bind]
    exact hb'


theorem scanFold_spec (b : List Nat) (interval : Nat) :
    ∀ (l : List Nat), l.Pairwise (· < ·) → ∀ (acc : Nat × Nat),
      acc.2 ≤ (l.foldl (scanStep b interval) acc).2 ∧
      (∀ j ∈ l, csm b interval j ≤ (l.foldl (scanStep b interval) acc).2) ∧
      ((l.foldl (scanStep b interval) acc).2 = acc.2 → l.foldl (scanStep b interval) acc = acc) ∧
      (acc.2 < (l.foldl (scanStep b interval) acc).2 →
        (l.foldl (scanStep b interval) acc).1 ∈ l ∧
        csm b interval (l.foldl (scanStep b interval) acc).1
          = (l.foldl (scanStep b interval) acc).2 ∧
        ∀ j ∈ l, j < (l.foldl (scanStep b interval) acc).1 →
          csm b interval j < (l.foldl (scanStep b interval) acc).2) := by
  intro l
  induction l with
  | nil =>
    intro _ acc
    refine ⟨le_refl _, by simp, fun _ => rfl, fun h => absurd h (lt_irrefl _)⟩
  | cons i t ih =>
    intro hp acc
    obtain ⟨hlt, hp'⟩ := List.pairwise_cons.mp hp
    rw [List.foldl_cons]
    by_cases hcs : csm b interval i > acc.2
    · have hstep : scanStep b interval acc i = (i, csm b interval i) := by
        unfold scanStep; rw [if_pos hcs]
      rw [hstep]
      obtain ⟨ih1, ih2, ih3, ih4⟩ := ih hp' (i, csm b interval i)
      refine ⟨le_trans (le_of_lt hcs) ih1, ?_, ?_, ?_⟩
      · intro j hj
        rcases List.mem_cons.mp hj with h | h
        · subst h; exact ih1
        · exact ih2 j h
      · intro hEq
        exfalso
        have : csm b interval i ≤ (t.foldl (scanStep b interval) (i, csm b interval i)).2 := ih1
        omega
      · intro _
        by_cases hR : (t.foldl (scanStep b interval) (i, csm b interval i)).2 = csm b interval i
        · have hRa := ih3 hR
          rw [hRa]
          refine ⟨List.mem_cons_self i t, rfl, ?_⟩
          intro j hj hji
          rcases List.mem_cons.mp hj with h | h
          · subst h; exact absurd hji (lt_irrefl _)
          · exact absurd hji (not_lt.mpr (le_of_lt (hlt j h)))
        · have hR' : csm b interval i < (t.foldl (scanStep b interval) (i, csm b interval i)).2 := by
            rcases lt_or_eq_of_le ih1 with h | h
            · exact h
            · exact absurd h.symm hR
          obtain ⟨hmem, hcsm, hfirst⟩ := ih4 hR'
          refine ⟨List.mem_cons_of_mem i hmem, hcsm, ?_⟩
          intro j hj hji
          rcases List.mem_cons.mp hj with h | h
          · subst h; exact hR'
          · exact hfirst j h hji
    · have hstep : scanStep b interval acc i = acc := by
        unfold scanStep; rw [if_neg hcs]
      rw [hstep]
      obtain ⟨ih1, ih2, ih3, ih4⟩ := ih hp' acc
      refine ⟨ih1, ?_, ih3, ?_⟩
      · intro j hj
        rcases List.mem_cons.mp hj with h | h
        · subst h; exact le_trans (not_lt.mp hcs) ih1
        · exact ih2 j h
      · intro hR
        obtain ⟨hmem, hcsm, hfirst⟩ := ih4 hR
        refine ⟨List.mem_cons_of_mem i hmem, hcsm, ?_⟩
        intro j hj hji
        rcases List.mem_cons.mp hj with h | h
        · subst h; exact lt_of_le_of_lt (not_lt.mp hcs) hR
        · exact hfirst j h hji

theorem windowScan_spec (b : List Nat) (interval : Nat) :
    ((windowScan b interval) = (0, 0) ∧
      ∀ j ∈ List.range' 1 (b.length - interval - 1), csm b interval j = 0) ∨
    ((windowScan b interval).1 ∈ List.range' 1 (b.length - interval - 1) ∧
      0 < csm b interval (windowScan b interval).1 ∧
      (∀ j ∈ List.range' 1 (b.length - interval - 1),
        csm b interval j ≤ csm b interval (windowScan b interval).1) ∧
      ∀ j ∈ List.range' 1 (b.length - interval - 1),
        j < (windowScan b interval).1 →
          csm b interval j < csm b interval (windowScan b interval).1) := by
  unfold windowScan
  have hpw : (List.range' 1 (b.length - interval - 1)).Pairwise (· < ·) :=
    List.pairwise_lt_range' 1 (b.length - interval - 1) 1 (by omega)
  obtain ⟨h1, h2, h3, h4⟩ :=
    scanFold_spec b interval (List.range' 1 (b.length - interval - 1)) hpw (0, 0)
  by_cases hz :
      (List.foldl (scanStep b interval) (0, 0) (List.range' 1 (b.length - interval - 1))).2 = 0
  · left
    refine ⟨h3 hz, fun j hj => ?_⟩
    have := h2 j hj
    omega
  · right
    have hpos : ((0 : Nat), (0 : Nat)).2
        < (List.foldl (scanStep b interval) (0, 0) (List.range' 1 (b.length - interval - 1))).2 := by
      show (0 : Nat) < _
      omega
    obtain ⟨hmem, hcsm, hfirst⟩ := h4 hpos
    refine ⟨hmem, by rw [hcsm]; omega, fun j hj => by rw [hcsm]; exact h2 j hj,
      fun j hj hji => by rw [hcsm]; exact hfirst j hj hji⟩


theorem selectVideo_single (v : String) (os : List Int) (hne : os ≠ []) :
    selectVideo [(v, os)] = Except.ok (v, PyVal.list os) := by
  have hpos : (0 : Int) < (os.length : Int) := by
    have := List.length_pos.mpr hne
    exact_mod_cast this
  simp [selectVideo, List.foldlM, pyGtLen, hpos, bind, Except.bind, pure, Except.pure]

theorem lookupD_single (v : String) (os : List Int) : lookupD [(v, os)] v = os := by
  simp [lookupD, List.find?]

theorem findHeavyRange_single (ms : List MatchResult) (v : String) (os : List Int)
    (interval : Nat) (mx : Int) (b : List Nat)
    (h1 : buildFrames ms = Except.ok [(v, os)]) (hne : os ≠ [])
    (hmx : pyMax os = Except.ok mx)
    (hfb : fillBuffer (List.replicate (mx + 1).toNat 0) os = Except.ok b) :
    findHeavyRange ms interval
      = Except.ok (v ++ ".MOV", (windowScan b interval).1, (windowScan b interval).1 + interval) := by
  unfold findHeavyRange
  rw [h1]
  simp only [bind, Except.bind, selectVideo_single v os hne, lookupD_single, hmx, hfb, pure,
    Except.pure]


/-- C1: for matches whose ids decode to ordinals `[1,1,2,3,3,3,4,10]` for the
single video `clip` and `windowLength = 4`, `findHeavyRange` returns the
heavy range `startSecond = 1`, `endSecond = 5`, with a source video name
ending in `clip.MOV`. -/
theorem claim1_heavy_range_concrete :
    findHeavyRange
      [⟨"video_context/clip/frame_0001.txt"⟩, ⟨"video_context/clip/frame_0001.txt"⟩,
       ⟨"video_context/clip/frame_0002.txt"⟩, ⟨"video_context/clip/frame_0003.txt"⟩,
       ⟨"video_context/clip/frame_0003.txt"⟩, ⟨"video_context/clip/frame_0003.txt"⟩,
       ⟨"video_context/clip/frame_0004.txt"⟩, ⟨"video_context/clip/frame_0010.txt"⟩] 4
      = Except.ok ("source/clip.MOV", 1, 5)
    ∧ "clip.MOV".data.isSuffixOf "source/clip.MOV".data = true :=
  ⟨rfl, by decide⟩

/-- C2: contrary to the claim, matches spanning two distinct videos make the
selection loop raise `TypeError`: after the first iteration `videoCount`
holds the list `val` rather than its length, so the comparison
`len(val) > videoCount` compares `int` with `list`. -/
theorem claim2_two_videos_type_error :
    findHeavyRange
      [⟨"video_context/a/frame_0001.txt"⟩, ⟨"video_context/b/frame_0001.txt"⟩] 4
      = Except.error PyErr.typeError := rfl

/-- C3 counterexample: a single-video input whose only ordinal is `1`
(within `[1, windowLength]` for `windowLength = 4`) yields `startSecond = 0`,
not `1` as the claim states: the scan loop `range(1, len(buffer) - 4)` is
empty for `len(buffer) = 2`. -/
theorem claim3_counterexample :
    findHeavyRange [⟨"video_context/clip/frame_0001.txt"⟩] 4
      = Except.ok ("source/clip.MOV", 0, 4)
    ∧ (0 : Nat) ≠ 1 :=
  ⟨rfl, by decide⟩

/-- C3 amended: when the selected video's ordinals all lie in
`[1, windowLength]`, the scan loop executes zero iterations and
`findHeavyRange` returns the initial `startSecond = 0` (with
`endSecond = windowLength`), not the first feasible window. -/
theorem claim3_amended (ms : List MatchResult) (v : String) (os : List Int) (interval : Nat)
    (h1 : buildFrames ms = Except.ok [(v, os)]) (hne : os ≠ [])
    (hr : ∀ o ∈ os, 1 ≤ o ∧ o ≤ (interval : Int)) :
    findHeavyRange ms interval = Except.ok (v ++ ".MOV", 0, interval) := by
  obtain ⟨mx, hmx⟩ := pyMax_ok os hne
  have hmx_le : mx ≤ (interval : Int) := pyMax_le os _ mx (fun x hx => (hr x hx).2) hmx
  obtain ⟨o₀, ho₀⟩ := List.exists_mem_of_ne_nil os hne
  have hmx_ge : (1 : Int) ≤ mx := le_trans (hr o₀ ho₀).1 (mem_le_pyMax os mx hmx o₀ ho₀)
  obtain ⟨b, hfb, hbl⟩ := fillBuffer_ok os (List.replicate (mx + 1).toNat 0) (fun o ho => by
    refine ⟨by have := (hr o ho).1; omega, ?_⟩
    have h2 := mem_le_pyMax os mx hmx o ho
    simp only [List.length_replicate]
    omega)
  rw [findHeavyRange_single ms v os interval mx b h1 hne hmx hfb]
  have hlen0 : b.length - interval - 1 = 0 := by
    rw [hbl]
    simp only [List.length_replicate]
    omega
  have hws : windowScan b interval = (0, 0) := by
    unfold windowScan
    rw [hlen0]
    rfl
  rw [hws]
  simp

/-- C3 witness: the amended claim applied to the concrete single-match input
with ordinal 1 and `windowLength = 4`. -/
theorem claim3_witness :
    buildFrames [⟨"video_context/clip/frame_0001.txt"⟩]
      = Except.ok [("source/clip", [1])]
    ∧ ([(1 : Int)] ≠ [])
    ∧ (∀ o ∈ [(1 : Int)], 1 ≤ o ∧ o ≤ ((4 : Nat) : Int))
    ∧ findHeavyRange [⟨"video_context/clip/frame_0001.txt"⟩] 4
        = Except.ok ("source/clip.MOV", 0, 4) :=
  ⟨rfl, by decide, by decide,
    claim3_amended [⟨"video_context/clip/frame_0001.txt"⟩] "source/clip" [1] 4 rfl
      (by decide) (by decide)⟩

/-- C4: `findHeavyRange` on the empty match list fails with the Python error
raised at the empty-sequence `max()` call (the `NoMatches` precondition
violation of the spec) and never returns a range. -/
theorem claim4_empty_matches_error (interval : Nat) :
    findHeavyRange [] interval = Except.error PyErr.valueErrorMax := rfl

/-- C4 witness: the empty-match failure at the default window length 4. -/
theorem claim4_witness : findHeavyRange [] 4 = Except.error PyErr.valueErrorMax :=
  claim4_empty_matches_error 4


/-- C5 counterexample: two matches with ordinal 5 and `windowLength = 4`
give `buffer = [0,0,0,0,0,2]`, whose claimed scan range runs through start
index `len(buffer) - windowLength = 2`; the window at 2 (containing the
maximum ordinal) sums to 2, yet the code returns `startSecond = 0` with
window sum 0, because `range(1, len(buffer) - interval)` stops before 2. -/
theorem claim5_counterexample :
    findHeavyRange
      [⟨"video_context/clip/frame_0005.txt"⟩, ⟨"video_context/clip/frame_0005.txt"⟩] 4
      = Except.ok ("source/clip.MOV", 0, 4)
    ∧ bufferOf [5, 5] = Except.ok [0, 0, 0, 0, 0, 2]
    ∧ csm [0, 0, 0, 0, 0, 2] 4 0 = 0
    ∧ csm [0, 0, 0, 0, 0, 2] 4 2 = 2
    ∧ ([0, 0, 0, 0, 0, 2] : List Nat).length - 4 = 2 :=
  ⟨rfl, rfl, rfl, rfl, rfl⟩

/-- C5 amended: for a non-empty single-video input the scan evaluates the
window sums for the start indices `1` through `len(buffer) - windowLength - 1`
inclusive (Python `range(1, len(buffer) - interval)`), so the window ending at
the last buffer index is not considered; the returned `startSecond` is either
the initial 0 when every evaluated window sums to 0, or the least evaluated
start index achieving the strictly greatest evaluated window sum. -/
theorem claim5_amended (ms : List MatchResult) (v : String) (os : List Int) (interval : Nat)
    (mx : Int) (b : List Nat)
    (h1 : buildFrames ms = Except.ok [(v, os)]) (hne : os ≠ [])
    (hmx : pyMax os = Except.ok mx)
    (hfb : fillBuffer (List.replicate (mx + 1).toNat 0) os = Except.ok b) :
    findHeavyRange ms interval
      = Except.ok (v ++ ".MOV", (windowScan b interval).1, (windowScan b interval).1 + interval)
    ∧ (((windowScan b interval) = (0, 0) ∧
        ∀ j ∈ List.range' 1 (b.length - interval - 1), csm b interval j = 0) ∨
       ((windowScan b interval).1 ∈ List.range' 1 (b.length - interval - 1) ∧
        0 < csm b interval (windowScan b interval).1 ∧
        (∀ j ∈ List.range' 1 (b.length - interval - 1),
          csm b interval j ≤ csm b interval (windowScan b interval).1) ∧
        ∀ j ∈ List.range' 1 (b.length - interval - 1),
          j < (windowScan b interval).1 →
            csm b interval j < csm b interval (windowScan b interval).1)) :=
  ⟨findHeavyRange_single ms v os interval mx b h1 hne hmx hfb, windowScan_spec b interval⟩

/-- C5 witness: the amended claim applied to the C1 scenario, where the scan
selects start index 1 with window sum 7. -/
theorem claim5_witness :
    buildFrames
      [⟨"video_context/clip/frame_0001.txt"⟩, ⟨"video_context/clip/frame_0001.txt"⟩,
       ⟨"video_context/clip/frame_0002.txt"⟩, ⟨"video_context/clip/frame_0003.txt"⟩,
       ⟨"video_context/clip/frame_0003.txt"⟩, ⟨"video_context/clip/frame_0003.txt"⟩,
       ⟨"video_context/clip/frame_0004.txt"⟩, ⟨"video_context/clip/frame_0010.txt"⟩]
      = Except.ok [("source/clip", [1, 1, 2, 3, 3, 3, 4, 10])]
    ∧ ([(1 : Int), 1, 2, 3, 3, 3, 4, 10] ≠ [])
    ∧ pyMax [(1 : Int), 1, 2, 3, 3, 3, 4, 10] = Except.ok 10
    ∧ fillBuffer (List.replicate ((10 : Int) + 1).toNat 0) [1, 1, 2, 3, 3, 3, 4, 10]
        = Except.ok [0, 2, 1, 3, 1, 0, 0, 0, 0, 0, 1]
    ∧ findHeavyRange
        [⟨"video_context/clip/frame_0001.txt"⟩, ⟨"video_context/clip/frame_0001.txt"⟩,
         ⟨"video_context/clip/frame_0002.txt"⟩, ⟨"video_context/clip/frame_0003.txt"⟩,
         ⟨"video_context/clip/frame_0003.txt"⟩, ⟨"video_context/clip/frame_0003.txt"⟩,
         ⟨"video_context/clip/frame_0004.txt"⟩, ⟨"video_context/clip/frame_0010.txt"⟩] 4
        = Except.ok ("source/clip.MOV", 1, 5) :=
  ⟨rfl, by decide, rfl, rfl,
    (claim5_amended
      [⟨"video_context/clip/frame_0001.txt"⟩, ⟨"video_context/clip/frame_0001.txt"⟩,
       ⟨"video_context/clip/frame_0002.txt"⟩, ⟨"video_context/clip/frame_0003.txt"⟩,
       ⟨"video_context/clip/frame_0003.txt"⟩, ⟨"video_context/clip/frame_0003.txt"⟩,
       ⟨"video_context/clip/frame_0004.txt"⟩, ⟨"video_context/clip/frame_0010.txt"⟩]
      "source/clip" [1, 1, 2, 3, 3, 3, 4, 10] 4 10 [0, 2, 1, 3, 1, 0, 0, 0, 0, 0, 1]
      rfl (by decide) rfl rfl).1⟩


/-- C6 counterexample: the system-producible identifier
`resources/video_context/clip/frame_0001.txt` (workspace folder named
`resources`) does not round-trip: the parse rewrites `video_context` to
`source`, and the inverse rewrite of `source` back to `video_context` also
hits the stray occurrence of `source` inside `resources`. -/
theorem claim6_counterexample :
    (decodeId "resources/video_context/clip/frame_0001.txt").map formatId
      = some "revideo_contexts/video_context/clip/frame_0001.txt"
    ∧ ("revideo_contexts/video_context/clip/frame_0001.txt" : String)
        ≠ "resources/video_context/clip/frame_0001.txt" :=
  ⟨rfl, by decide⟩

/-- C6 amended: the round-trip holds for canonical identifiers
`ws/video_context/<stem>/frame_<%04d o>.txt` whose stem contains no stray
occurrence of the substrings `video_context` or `source`: parsing yields the
`source`-rooted name and the ordinal, and formatting that identifier
reproduces the identifier string; it fails when a stray `source` or
`video_context` substring occurs elsewhere in the path. -/
theorem claim6_amended (stem : List Char) (o : Nat)
    (hv : hasOccur "video_context".data stem = false)
    (hs : hasOccur "source".data stem = false) :
    decodeId (idOf stem o) = some (String.mk ("ws/source/".data ++ stem), ((o : Int)))
    ∧ formatId (String.mk ("ws/source/".data ++ stem), ((o : Int))) = idOf stem o :=
  ⟨decodeId_idOf stem o hv, formatId_canonical stem o hs⟩

/-- C6 witness: the round-trip at stem `clip` and ordinal 1. -/
theorem claim6_witness :
    hasOccur "video_context".data "clip".data = false
    ∧ hasOccur "source".data "clip".data = false
    ∧ decodeId (idOf "clip".data 1) = some ("ws/source/clip", (1 : Int))
    ∧ formatId ("ws/source/clip", (1 : Int)) = idOf "clip".data 1 :=
  ⟨by decide, by decide,
    (claim6_amended "clip".data 1 (by decide) (by decide)).1,
    (claim6_amended "clip".data 1 (by decide) (by decide)).2⟩

/-- C7 counterexample: the transcript identifier
`audio_transcripts/clip/3-7.json` has stem `3-7`, which contains digits and
consists of segment bounds, yet parsing fails (`int("3-7")` raises); likewise
the non-`frame_` digit-suffixed stem `seg_12` fails, so parsing does not
strip arbitrary non-digit material and does not fail exactly on digit-free
stems. -/
theorem claim7_counterexample :
    decodeId "audio_transcripts/clip/3-7.json" = none
    ∧ stemOf "audio_transcripts/clip/3-7.json".data = "3-7".data
    ∧ ('3' ∈ "3-7".data ∧ '3'.isDigit = true)
    ∧ decodeId "video_context/clip/seg_12.txt" = none :=
  ⟨rfl, rfl, by decide, rfl⟩

/-- C7 amended: identifier parsing removes only the literal `frame_` from the
stem and then requires the remainder to be a decimal numeral, so stems
`frame_<digits>` parse to the digits' value while transcript stems
`<start>-<end>` (and any other stem whose residue is not a numeral) fail. -/
theorem claim7_amended (ds : List Char) (hne : ds ≠ []) (hd : ∀ c ∈ ds, c.isDigit = true) :
    decodeId (String.mk
        ("ws/video_context/".data ++ "clip".data ++ "/frame_".data ++ ds ++ ".txt".data))
      = some (String.mk ("ws/source/".data ++ "clip".data), ((digitsVal ds : Int)))
    ∧ decodeId "audio_transcripts/clip/3-7.json" = none :=
  ⟨decodeId_frames "clip".data ds (by decide) hne hd, rfl⟩

/-- C7 witness: the amended claim at digit string `0042`, ordinal value 42. -/
theorem claim7_witness :
    ("0042".data ≠ [])
    ∧ (∀ c ∈ "0042".data, c.isDigit = true)
    ∧ decodeId (String.mk
        ("ws/video_context/".data ++ "clip".data ++ "/frame_".data ++ "0042".data ++ ".txt".data))
      = some ("ws/source/clip", (42 : Int)) :=
  ⟨by decide, by decide,
    (claim7_amended "0042".data (by decide) (by decide)).1⟩

/-- C8: contrary to the claim, the audio indexer's discovery step
(`rglob("*.txt")`) matches no transcript artifact of the
`<start>-<end>.json` family, silently skipping them all. -/
theorem claim8_txt_glob_skips_transcripts :
    audioDiscovered ["ws/audio_transcripts/clip/0-5.json"] = []
    ∧ ".json".data.isSuffixOf (nameOf "ws/audio_transcripts/clip/0-5.json".data) = true :=
  ⟨rfl, by decide⟩

/-- C9 counterexample: the upserted metadata of a transcript with summary
`a summary` and raw text `the raw text` has no `raw_text` key at all — only
the summary is stored. -/
theorem claim9_counterexample :
    ((storeFrameEntry (fun s => s) "ws/audio_transcripts/clip/0-5.json"
        ⟨some "a summary", some "the raw text"⟩).metadata.lookup "raw_text" = none)
    ∧ ((storeFrameEntry (fun s => s) "ws/audio_transcripts/clip/0-5.json"
        ⟨some "a summary", some "the raw text"⟩).metadata.lookup "summary"
        = some "a summary") :=
  ⟨rfl, rfl⟩

/-- C9 amended: for every transcript artifact the upserted metadata contains
exactly the embedded text payload under `summary` (defaulting to the empty
string when the field is absent) and no `raw_text` entry. -/
theorem claim9_amended {V : Type} (embed : String → V) (f : String) (d : TranscriptJson) :
    (storeFrameEntry embed f d).metadata.lookup "summary" = some (d.summary.getD "")
    ∧ (storeFrameEntry embed f d).metadata.lookup "raw_text" = none :=
  ⟨rfl, rfl⟩

/-- C9 witness: the amended claim at a concrete transcript. -/
theorem claim9_witness :
    (storeFrameEntry (fun s => s.length) "ws/audio_transcripts/clip/6-9.json"
        ⟨some "sea view", some "we saw the sea"⟩).metadata.lookup "summary" = some "sea view"
    ∧ (storeFrameEntry (fun s => s.length) "ws/audio_transcripts/clip/6-9.json"
        ⟨some "sea view", some "we saw the sea"⟩).metadata.lookup "raw_text" = none :=
  claim9_amended (fun s => s.length) "ws/audio_transcripts/clip/6-9.json"
    ⟨some "sea view", some "we saw the sea"⟩

/-- C10: for a non-empty ordinal list with no negative entries, the buffer is
allocated with length `max + 1`, every ordinal indexes it in bounds, and the
histogram fill succeeds, preserving that length. -/
theorem claim10_buffer_in_bounds (os : List Int) (hne : os ≠ [])
    (hpos : ∀ o ∈ os, 0 ≤ o) :
    ∃ mx b, pyMax os = Except.ok mx
      ∧ (∀ o ∈ os, 0 ≤ o ∧ o < ((List.replicate (mx + 1).toNat 0 : List Nat).length : Int))
      ∧ fillBuffer (List.replicate (mx + 1).toNat 0) os = Except.ok b
      ∧ b.length = (mx + 1).toNat := by
  obtain ⟨mx, hmx⟩ := pyMax_ok os hne
  have hb : ∀ o ∈ os, 0 ≤ o ∧ o < ((List.replicate (mx + 1).toNat 0 : List Nat).length : Int) := by
    intro o ho
    have h1 := hpos o ho
    have h2 := mem_le_pyMax os mx hmx o ho
    refine ⟨h1, ?_⟩
    simp only [List.length_replicate]
    omega
  obtain ⟨b, hfb, hlen⟩ := fillBuffer_ok os _ hb
  exact ⟨mx, b, hmx, hb, hfb, by simpa using hlen⟩

/-- C10 witness: the in-bounds property at the C1 ordinal list. -/
theorem claim10_witness :
    ([(1 : Int), 1, 2, 3, 3, 3, 4, 10] ≠ [])
    ∧ (∀ o ∈ [(1 : Int), 1, 2, 3, 3, 3, 4, 10], 0 ≤ o)
    ∧ ∃ mx b, pyMax [(1 : Int), 1, 2, 3, 3, 3, 4, 10] = Except.ok mx
      ∧ (∀ o ∈ [(1 : Int), 1, 2, 3, 3, 3, 4, 10],
          0 ≤ o ∧ o < ((List.replicate (mx + 1).toNat 0 : List Nat).length : Int))
      ∧ fillBuffer (List.replicate (mx + 1).toNat 0) [(1 : Int), 1, 2, 3, 3, 3, 4, 10]
          = Except.ok b
      ∧ b.length = (mx + 1).toNat :=
  ⟨by decide, by decide,
    claim10_buffer_in_bounds [(1 : Int), 1, 2, 3, 3, 3, 4, 10] (by decide) (by decide)⟩

end HRM
